import Mathlib

/-!
Verification development for the trading-mind backend (Node.js/Express/MongoDB).

Shallow embedding conventions:
* Calendar dates are modelled as `CalDate` triples (year, month, day : Nat).
  The program stores dates as zero-padded "YYYY-MM-DD" strings and compares
  them with MongoDB's lexicographic string order; on well-formed zero-padded
  date strings that order coincides with the lexicographic order on the
  (year, month, day) triples, which is the order `dateLe` below.
  JavaScript's `Date` back-arithmetic (`setDate(getDate() - 1)`) on the
  proleptic Gregorian calendar is modelled by `prevDay`.  We only consider
  dates with year ≥ 1 where needed (stepping back from year 0 produces
  expanded-form ISO strings in JavaScript, which never match stored dates).
* JavaScript strings are Lean `String`s.  A missing/undefined request field
  of string type is modelled as `""` (both are falsy in the `!x` checks).
* The MongoDB collections are modelled as in-memory lists; `findOne` is
  `List.find?`, the per-user-singleton collections as `Option` of the
  document, and the per-(user,date) daily collection as an association list
  keyed by the date string.
* Mongoose schema-level `trim: true` setters are part of every subdocument
  constructor (`mkItem`); Mongoose subdocument `_id`s are modelled as `Nat`
  identifiers supplied by a seed parameter.
* External collaborators (bcrypt's hash comparison, the JWT library's
  verify) are abstract function parameters of the operations that use them.
-/

namespace TradingMind

/-! ## Calendar dates -/

/-- A calendar date, the (year, month, day) reading of a "YYYY-MM-DD" string. -/
structure CalDate where
  y : Nat
  m : Nat
  d : Nat
deriving DecidableEq, Repr

/-- Lexicographic order on dates: the order MongoDB's string comparison gives
to well-formed zero-padded "YYYY-MM-DD" strings. -/
def dateLe (a b : CalDate) : Bool :=
  decide (a.y < b.y ∨ (a.y = b.y ∧ (a.m < b.m ∨ (a.m = b.m ∧ a.d ≤ b.d))))

/-- Strict version of `dateLe`. -/
def dateLt (a b : CalDate) : Bool :=
  decide (a.y < b.y ∨ (a.y = b.y ∧ (a.m < b.m ∨ (a.m = b.m ∧ a.d < b.d))))

/-- Gregorian leap-year rule, as implemented by JavaScript `Date`. -/
def isLeapYear (y : Nat) : Bool :=
  y % 4 = 0 && (y % 100 != 0 || y % 400 = 0)

/-- Number of days in a month (JavaScript `Date` month arithmetic). -/
def daysInMonth (y m : Nat) : Nat :=
  if m = 2 then (if isLeapYear y then 29 else 28)
  else if m = 4 ∨ m = 6 ∨ m = 9 ∨ m = 11 then 30
  else 31

/-- Step one calendar day backwards, with month/year rollover: the model of
`prevDate.setDate(prevDate.getDate() - 1)` in the streak loop. -/
def prevDay (c : CalDate) : CalDate :=
  if 1 < c.d then ⟨c.y, c.m, c.d - 1⟩
  else if 1 < c.m then ⟨c.y, c.m - 1, daysInMonth c.y (c.m - 1)⟩
  else ⟨c.y - 1, 12, 31⟩

/-! ## Check-in records (models/CheckIn.js) -/

/-- An entry of the `incompleteTasks` array. -/
structure TaskItem where
  title : String
  content : String
deriving DecidableEq, Repr

/-- A check-in record as stored by the `CheckIn` model: one per (user, date),
`type` is the validated kind string, `isCompleted` the stored boolean. -/
structure CheckInRec where
  userId : Nat
  date : CalDate
  type : String
  isCompleted : Bool
  incompleteTasks : List TaskItem
  note : String
deriving DecidableEq, Repr

/-- Uniform response envelope: `{code, message}` (the `data` payload is kept
in the operation-specific result where a claim needs it). -/
structure Resp where
  code : Nat
  message : String
deriving DecidableEq, Repr

/-! ## recordCheckIn — POST /api/checkin (routes/checkin.js) -/

/-- POST /api/checkin.  Validates the kind, applies the date default,
rejects a duplicate (user, date) pair, otherwise appends the new record.
Returns the response and the new collection state. -/
def recordCheckIn (db : List CheckInRec) (u : Nat) (ty : String)
    (tasks : List TaskItem) (note : String) (date? : Option CalDate)
    (todayDate : CalDate) : Resp × List CheckInRec :=
  if ty = "" then
    (⟨400, "签到类型不能为空（completed 或 incomplete）"⟩, db)
  else if ¬ (ty = "completed" ∨ ty = "incomplete") then
    (⟨400, "签到类型必须是 completed（完成）或 incomplete（手欠）"⟩, db)
  else
    let checkInDate := date?.getD todayDate
    match db.find? (fun r => decide (r.userId = u ∧ r.date = checkInDate)) with
    | some _ => (⟨400, "今天已经签到过了，不能重复签到"⟩, db)
    | none =>
        (⟨200, if ty = "completed" then "签到成功！继续保持交易纪律！" else "已记录手欠行为，下次注意！"⟩,
         db ++ [⟨u, checkInDate, ty, decide (ty = "completed"), tasks, note⟩])

/-- States of the check-in collection reachable from the empty collection by
the only write operation (records are never updated or deleted). -/
inductive CheckInReachable : List CheckInRec → Prop
  | init : CheckInReachable []
  | step (db : List CheckInRec) (u : Nat) (ty : String) (tasks : List TaskItem)
      (note : String) (date? : Option CalDate) (todayDate : CalDate) :
      CheckInReachable db →
      CheckInReachable (recordCheckIn db u ty tasks note date? todayDate).2

/-! ## listMonth — GET /api/checkin?year&month (routes/checkin.js) -/

/-- Result of the monthly listing: the sorted record list plus the counts. -/
structure MonthListData where
  year : Nat
  month : Nat
  total : Nat
  completedCount : Nat
  incompleteCount : Nat
  records : List CheckInRec
deriving Repr

/-- GET /api/checkin?year&month.  Selects the user's records with date in the
lexicographic range [YYYY-MM-01, YYYY-MM-31] (upper bound fixed at 31),
sorted ascending by date, and counts the completed/incomplete partition. -/
def listMonth (db : List CheckInRec) (u : Nat) (year month : Nat) : MonthListData :=
  let startDate : CalDate := ⟨year, month, 1⟩
  let endDate : CalDate := ⟨year, month, 31⟩
  let records := (db.filter (fun r =>
      decide (r.userId = u) && dateLe startDate r.date && dateLe r.date endDate)).mergeSort
      (fun a b => dateLe a.date b.date)
  { year := year
    month := month
    total := records.length
    completedCount := (records.filter (fun r => r.isCompleted)).length
    incompleteCount := (records.filter (fun r => !r.isCompleted)).length
    records := records }

/-! ## computeStats streak — GET /api/checkin/stats (routes/checkin.js) -/

/-- The dates of the user's full check-in history (`checkInDates` in the
handler); the kind of each record is irrelevant here. -/
def userDates (db : List CheckInRec) (u : Nat) : List CalDate :=
  (db.filter (fun r => decide (r.userId = u))).map (fun r => r.date)

/-- The backward walk of the streak `while` loop: count consecutive days with
a record, stepping back one day at a time.  The source loop is unbounded;
`fuel` makes it structural, and `computeStreak` supplies fuel that is never
exhausted (shown by `streakWalk_spec`). -/
def streakWalk (dates : List CalDate) : Nat → CalDate → Nat
  | 0, _ => 0
  | fuel + 1, c =>
      if c ∈ dates then streakWalk dates fuel (prevDay c) + 1 else 0

/-- The streak computed by GET /api/checkin/stats: 0 if neither today nor
yesterday has a record, otherwise the backward walk started at today if today
has a record and at yesterday otherwise. -/
def computeStreak (db : List CheckInRec) (u : Nat) (today : CalDate) : Nat :=
  let dates := userDates db u
  let yesterday := prevDay today
  if today ∈ dates ∨ yesterday ∈ dates then
    streakWalk dates dates.length (if today ∈ dates then today else yesterday)
  else 0

/-! ## JavaScript string trimming -/

/-- Trim of a character list: drop whitespace from the front, then from the
back. -/
def trimChars (l : List Char) : List Char :=
  ((l.dropWhile Char.isWhitespace).reverse.dropWhile Char.isWhitespace).reverse

/-- JavaScript `String.prototype.trim` (and the Mongoose `trim: true` schema
setter): remove leading and trailing whitespace. -/
def jsTrim (s : String) : String :=
  ⟨trimChars s.data⟩

/-! ## User settings (models/UserSettings.js, routes/settings.js) -/

/-- A `tradingHomework` / `tradingPlans` subdocument (also the shape of the
daily `tradingPlans` items): stable `_id`, title and content, both run
through the schema `trim: true` setter on assignment. -/
structure SettingsItem where
  id : Nat
  title : String
  content : String
deriving DecidableEq, Repr

/-- Subdocument constructor: Mongoose casts an assigned plain object to the
subdocument schema, applying the `trim: true` setters to both fields. -/
def mkItem (id : Nat) (title content : String) : SettingsItem :=
  ⟨id, jsTrim title, jsTrim content⟩

/-- An item of a request body list, before schema casting (missing fields
modelled as `""`, matching the `item.title || ''` defaults). -/
structure RawItem where
  title : String
  content : String
deriving DecidableEq, Repr

/-- Assign fresh subdocument ids seed, seed+1, … to a cast list (Mongoose
generates a fresh `_id` per new subdocument). -/
def assignIds (seed : Nat) : List RawItem → List SettingsItem
  | [] => []
  | i :: rest => mkItem seed i.title i.content :: assignIds (seed + 1) rest

/-- The per-user settings document. -/
structure UserSettingsDoc where
  presetPrinciples : List (Nat × Bool)
  customPrinciples : List String
  tradingHomework : List SettingsItem
  tradingPlans : List SettingsItem
deriving DecidableEq, Repr

/-- The three fixed default homework items (`DEFAULT_HOMEWORK`). -/
def DEFAULT_HOMEWORK : List SettingsItem :=
  [⟨0, "判断情绪周期", "最高连扳数量，涨停个股数量，跌停个股数量"⟩,
   ⟨1, "判断政策面", ""⟩,
   ⟨2, "判断板块", ""⟩]

/-- The three fixed default plan items (`DEFAULT_PLANS`). -/
def DEFAULT_PLANS : List SettingsItem :=
  [⟨0, "候选股票", ""⟩, ⟨1, "买点计划", ""⟩, ⟨2, "卖出计划", ""⟩]

/-- A fresh settings document as created by
`new UserSettings({userId, tradingHomework: DEFAULT_HOMEWORK, tradingPlans:
DEFAULT_PLANS})` — the remaining fields take their schema defaults. -/
def freshSettings : UserSettingsDoc :=
  { presetPrinciples := [(0, true)]
    customPrinciples := []
    tradingHomework := DEFAULT_HOMEWORK
    tradingPlans := DEFAULT_PLANS }

/-- GET /api/settings: lazily create a default document, and backfill the
defaults into an existing document whose homework or plans list is empty.
The returned document is both the response data and the saved state. -/
def getSettings (s? : Option UserSettingsDoc) : UserSettingsDoc :=
  match s? with
  | none => freshSettings
  | some s =>
      { s with
        tradingHomework :=
          if s.tradingHomework = [] then DEFAULT_HOMEWORK else s.tradingHomework
        tradingPlans :=
          if s.tradingPlans = [] then DEFAULT_PLANS else s.tradingPlans }

/-- PUT /api/settings/principles: find-or-create, then replace the principle
fields that were supplied (an absent array leaves the field unchanged);
custom principles are filtered to the non-blank ones. -/
def putPrinciples (s? : Option UserSettingsDoc)
    (preset? : Option (List (Nat × Bool))) (custom? : Option (List String)) :
    Resp × Option UserSettingsDoc :=
  let s := s?.getD freshSettings
  let s := match preset? with
    | some l => { s with presetPrinciples := l }
    | none => s
  let s := match custom? with
    | some l => { s with customPrinciples := l.filter (fun p => ¬ jsTrim p = "") }
    | none => s
  (⟨200, "交易原则保存成功"⟩, some s)

/-- PUT /api/settings/homework: replace the whole homework list; items whose
title is blank after trimming are filtered out, the rest are cast through the
schema (trimmed, fresh ids). -/
def putHomeworkList (s? : Option UserSettingsDoc) (l : List RawItem)
    (seed : Nat) : Resp × Option UserSettingsDoc :=
  let s := s?.getD freshSettings
  (⟨200, "交易功课保存成功"⟩,
   some { s with tradingHomework := assignIds seed (l.filter (fun i => ¬ jsTrim i.title = "")) })

/-- PUT /api/settings/plans: same as `putHomeworkList` for the plans list. -/
def putPlansList (s? : Option UserSettingsDoc) (l : List RawItem)
    (seed : Nat) : Resp × Option UserSettingsDoc :=
  let s := s?.getD freshSettings
  (⟨200, "交易计划保存成功"⟩,
   some { s with tradingPlans := assignIds seed (l.filter (fun i => ¬ jsTrim i.title = "")) })

/-- POST /api/settings/homework: append a single homework item after the
blank-title check. -/
def postHomework (s? : Option UserSettingsDoc) (title content : String)
    (seed : Nat) : Resp × Option UserSettingsDoc :=
  if jsTrim title = "" then (⟨400, "标题不能为空"⟩, s?)
  else
    let s := s?.getD freshSettings
    (⟨200, "交易功课添加成功"⟩,
     some { s with tradingHomework := s.tradingHomework ++ [mkItem seed (jsTrim title) content] })

/-- POST /api/settings/plans: append a single plan item after the blank-title
check. -/
def postPlan (s? : Option UserSettingsDoc) (title content : String)
    (seed : Nat) : Resp × Option UserSettingsDoc :=
  if jsTrim title = "" then (⟨400, "标题不能为空"⟩, s?)
  else
    let s := s?.getD freshSettings
    (⟨200, "交易计划添加成功"⟩,
     some { s with tradingPlans := s.tradingPlans ++ [mkItem seed (jsTrim title) content] })

/-- In-place update of the subdocument with the given id
(`list.id(x)` lookup followed by field assignment and save). -/
def updateItemList (l : List SettingsItem) (id : Nat) (title content : String) :
    List SettingsItem :=
  l.map (fun it => if it.id = id then mkItem it.id (jsTrim title) content else it)

/-- PUT /api/settings/homework/:id: blank-title check, then parent lookup,
then subdocument lookup, then in-place update. -/
def putHomeworkItem (s? : Option UserSettingsDoc) (id : Nat)
    (title content : String) : Resp × Option UserSettingsDoc :=
  if jsTrim title = "" then (⟨400, "标题不能为空"⟩, s?)
  else match s? with
    | none => (⟨404, "设置不存在"⟩, none)
    | some s =>
        match s.tradingHomework.find? (fun it => decide (it.id = id)) with
        | none => (⟨404, "功课不存在"⟩, some s)
        | some _ =>
            (⟨200, "交易功课更新成功"⟩,
             some { s with tradingHomework := updateItemList s.tradingHomework id title content })

/-- PUT /api/settings/plans/:id: same as `putHomeworkItem` for plans. -/
def putPlanItem (s? : Option UserSettingsDoc) (id : Nat)
    (title content : String) : Resp × Option UserSettingsDoc :=
  if jsTrim title = "" then (⟨400, "标题不能为空"⟩, s?)
  else match s? with
    | none => (⟨404, "设置不存在"⟩, none)
    | some s =>
        match s.tradingPlans.find? (fun it => decide (it.id = id)) with
        | none => (⟨404, "计划不存在"⟩, some s)
        | some _ =>
            (⟨200, "交易计划更新成功"⟩,
             some { s with tradingPlans := updateItemList s.tradingPlans id title content })

/-- DELETE /api/settings/homework/:id: parent lookup, subdocument lookup,
then `pull(id)`. -/
def deleteHomeworkItem (s? : Option UserSettingsDoc) (id : Nat) :
    Resp × Option UserSettingsDoc :=
  match s? with
  | none => (⟨404, "设置不存在"⟩, none)
  | some s =>
      match s.tradingHomework.find? (fun it => decide (it.id = id)) with
      | none => (⟨404, "功课不存在"⟩, some s)
      | some _ =>
          (⟨200, "交易功课删除成功"⟩,
           some { s with tradingHomework := s.tradingHomework.filter (fun it => ¬ it.id = id) })

/-- DELETE /api/settings/plans/:id: same as `deleteHomeworkItem` for plans. -/
def deletePlanItem (s? : Option UserSettingsDoc) (id : Nat) :
    Resp × Option UserSettingsDoc :=
  match s? with
  | none => (⟨404, "设置不存在"⟩, none)
  | some s =>
      match s.tradingPlans.find? (fun it => decide (it.id = id)) with
      | none => (⟨404, "计划不存在"⟩, some s)
      | some _ =>
          (⟨200, "交易计划删除成功"⟩,
           some { s with tradingPlans := s.tradingPlans.filter (fun it => ¬ it.id = id) })

/-- Settings documents reachable from the absent document by the settings
endpoints. -/
inductive SettingsReachable : Option UserSettingsDoc → Prop
  | init : SettingsReachable none
  | get (s?) : SettingsReachable s? → SettingsReachable (some (getSettings s?))
  | principles (s? preset? custom?) : SettingsReachable s? →
      SettingsReachable (putPrinciples s? preset? custom?).2
  | hwList (s? l seed) : SettingsReachable s? →
      SettingsReachable (putHomeworkList s? l seed).2
  | planList (s? l seed) : SettingsReachable s? →
      SettingsReachable (putPlansList s? l seed).2
  | hwPost (s? title content seed) : SettingsReachable s? →
      SettingsReachable (postHomework s? title content seed).2
  | planPost (s? title content seed) : SettingsReachable s? →
      SettingsReachable (postPlan s? title content seed).2
  | hwPut (s? id title content) : SettingsReachable s? →
      SettingsReachable (putHomeworkItem s? id title content).2
  | planPut (s? id title content) : SettingsReachable s? →
      SettingsReachable (putPlanItem s? id title content).2
  | hwDel (s? id) : SettingsReachable s? →
      SettingsReachable (deleteHomeworkItem s? id).2
  | planDel (s? id) : SettingsReachable s? →
      SettingsReachable (deletePlanItem s? id).2

/-! ## Daily records (models/DailyRecord.js, routes/daily.js) -/

/-- The per-(user, date) daily record document. -/
structure DailyDoc where
  tradingPlans : List SettingsItem
  reflection : String
deriving DecidableEq, Repr

/-- One user's daily collection: an association list keyed by the date
string (the (userId, date) unique index makes each key single-valued). -/
abbrev DailyStore := List (String × DailyDoc)

/-- `findOne({userId, date})` on the daily collection. -/
def dlookup (store : DailyStore) (date : String) : Option DailyDoc :=
  (store.find? (fun p => decide (p.1 = date))).map (fun p => p.2)

/-- `save()` of a (possibly new) daily document: replaces the document under
its date key. -/
def dset (store : DailyStore) (date : String) (doc : DailyDoc) : DailyStore :=
  (date, doc) :: store.filter (fun p => ¬ p.1 = date)

/-- The `^\d{4}-\d{2}-\d{2}$` date-format check of the daily routes. -/
def validDateStr (s : String) : Bool :=
  match s.data with
  | [a, b, c, d, e, f, g, h, i, j] =>
      a.isDigit && b.isDigit && c.isDigit && d.isDigit && e = '-' &&
      f.isDigit && g.isDigit && h = '-' && i.isDigit && j.isDigit
  | _ => false

/-- PUT /api/daily/:date: date-format check, find-or-create, replace the plan
list (blank titles filtered out, schema cast) when an array was supplied, and
the reflection when a string was supplied. -/
def putDaily (store : DailyStore) (date : String)
    (plans? : Option (List RawItem)) (reflection? : Option String)
    (seed : Nat) : Resp × DailyStore :=
  if ¬ validDateStr date then (⟨400, "日期格式错误，应为 YYYY-MM-DD"⟩, store)
  else
    let doc := (dlookup store date).getD ⟨[], ""⟩
    let doc := match plans? with
      | some l => { doc with tradingPlans := assignIds seed (l.filter (fun i => ¬ jsTrim i.title = "")) }
      | none => doc
    let doc := match reflection? with
      | some r => { doc with reflection := jsTrim r }
      | none => doc
    (⟨200, "保存成功"⟩, dset store date doc)

/-- POST /api/daily/:date/plan: date-format and blank-title checks, then
find-or-create and append. -/
def postDailyPlan (store : DailyStore) (date : String)
    (title content : String) (seed : Nat) : Resp × DailyStore :=
  if ¬ validDateStr date then (⟨400, "日期格式错误，应为 YYYY-MM-DD"⟩, store)
  else if jsTrim title = "" then (⟨400, "标题不能为空"⟩, store)
  else
    let doc := (dlookup store date).getD ⟨[], ""⟩
    (⟨200, "添加成功"⟩,
     dset store date { doc with tradingPlans := doc.tradingPlans ++ [mkItem seed (jsTrim title) content] })

/-- PUT /api/daily/:date/plan/:id: blank-title check, then parent lookup,
then subdocument lookup, then in-place update (no date-format check in this
handler). -/
def putDailyPlanItem (store : DailyStore) (date : String) (id : Nat)
    (title content : String) : Resp × DailyStore :=
  if jsTrim title = "" then (⟨400, "标题不能为空"⟩, store)
  else match dlookup store date with
    | none => (⟨404, "记录不存在"⟩, store)
    | some doc =>
        match doc.tradingPlans.find? (fun it => decide (it.id = id)) with
        | none => (⟨404, "计划不存在"⟩, store)
        | some _ =>
            (⟨200, "更新成功"⟩,
             dset store date { doc with tradingPlans := updateItemList doc.tradingPlans id title content })

/-- DELETE /api/daily/:date/plan/:id: parent lookup, subdocument lookup, then
`pull(id)` (no date-format check in this handler). -/
def deleteDailyPlanItem (store : DailyStore) (date : String) (id : Nat) :
    Resp × DailyStore :=
  match dlookup store date with
  | none => (⟨404, "记录不存在"⟩, store)
  | some doc =>
      match doc.tradingPlans.find? (fun it => decide (it.id = id)) with
      | none => (⟨404, "计划不存在"⟩, store)
      | some _ =>
          (⟨200, "删除成功"⟩,
           dset store date { doc with tradingPlans := doc.tradingPlans.filter (fun it => ¬ it.id = id) })

/-- PUT /api/daily/:date/reflection: date-format check, find-or-create,
replace the reflection. -/
def putReflection (store : DailyStore) (date : String) (reflection : String) :
    Resp × DailyStore :=
  if ¬ validDateStr date then (⟨400, "日期格式错误，应为 YYYY-MM-DD"⟩, store)
  else
    let doc := (dlookup store date).getD ⟨[], ""⟩
    (⟨200, "保存成功"⟩, dset store date { doc with reflection := jsTrim reflection })

/-- Daily collections reachable from the empty collection by the daily
endpoints (GET does not mutate). -/
inductive DailyReachable : DailyStore → Prop
  | init : DailyReachable []
  | put (store date plans? reflection? seed) : DailyReachable store →
      DailyReachable (putDaily store date plans? reflection? seed).2
  | post (store date title content seed) : DailyReachable store →
      DailyReachable (postDailyPlan store date title content seed).2
  | putItem (store date id title content) : DailyReachable store →
      DailyReachable (putDailyPlanItem store date id title content).2
  | delItem (store date id) : DailyReachable store →
      DailyReachable (deleteDailyPlanItem store date id).2
  | reflect (store date reflection) : DailyReachable store →
      DailyReachable (putReflection store date reflection).2

/-- The per-item invariant of claim C7: the stored title is non-empty after
trimming, and both fields are stored trimmed. -/
def itemOk (it : SettingsItem) : Prop :=
  jsTrim it.title ≠ "" ∧ jsTrim it.title = it.title ∧
    jsTrim it.content = it.content

/-- The stored-list invariant of claim C7. -/
def itemsOk (l : List SettingsItem) : Prop :=
  ∀ it ∈ l, itemOk it

/-- Claim C7's invariant for the optional settings document. -/
def SettingsOk (s? : Option UserSettingsDoc) : Prop :=
  ∀ s, s? = some s → itemsOk s.tradingHomework ∧ itemsOk s.tradingPlans

/-- Claim C7's invariant for a daily collection. -/
def DailyOk (store : DailyStore) : Prop :=
  ∀ e ∈ store, itemsOk (Prod.snd e).tradingPlans

/-! ## Login (modules/user.js router.post('/login')) -/

/-- A stored user credential document. -/
structure UserDoc where
  id : Nat
  username : String
  phone : String
  password : String
deriving DecidableEq, Repr

/-- A login response: envelope plus the data payload (user id and token) on
success. -/
structure LoginResult where
  code : Nat
  message : String
  data : Option (Nat × String)
deriving DecidableEq, Repr

/-- POST /api/user/login.  `cmp` is bcrypt's `comparePassword` primitive and
`signToken` the JWT issuer, both external collaborators passed as functions.
Missing fields are `""` (falsy). -/
def login (cmp : String → String → Bool) (signToken : Nat → String)
    (users : List UserDoc) (phone password : String) : LoginResult :=
  if phone = "" ∨ password = "" then
    ⟨400, "手机号和密码都是必填项", none⟩
  else
    match users.find? (fun u => decide (u.phone = phone)) with
    | none => ⟨401, "手机号或密码错误", none⟩
    | some user =>
        if cmp password user.password then
          ⟨200, "登录成功", some (user.id, signToken user.id)⟩
        else
          ⟨401, "手机号或密码错误", none⟩

/-! ## SMS verification codes (utils/sms.js) -/

/-- A stored verification-code entry: the code and its expiry timestamp. -/
structure CodeEntry where
  code : String
  expireAt : Nat
deriving DecidableEq, Repr

/-- The in-memory `verificationCodes` map, keyed by phone number. -/
abbrev CodeStore := List (String × CodeEntry)

/-- `verificationCodes.get(phone)`. -/
def csGet (store : CodeStore) (phone : String) : Option CodeEntry :=
  (store.find? (fun p => decide (p.1 = phone))).map (fun p => p.2)

/-- `verificationCodes.set(phone, entry)`. -/
def csSet (store : CodeStore) (phone : String) (e : CodeEntry) : CodeStore :=
  (phone, e) :: store.filter (fun p => ¬ p.1 = phone)

/-- `verificationCodes.delete(phone)`. -/
def csDel (store : CodeStore) (phone : String) : CodeStore :=
  store.filter (fun p => ¬ p.1 = phone)

/-- The store action of a successful `sendSmsCode(phone)` at time `now`:
the entry expires 5 minutes (300000 ms) later. -/
def storeCode (store : CodeStore) (phone code : String) (now : Nat) : CodeStore :=
  csSet store phone ⟨code, now + 5 * 60 * 1000⟩

/-- The outcome of `verifySmsCode`. -/
structure VerifyResult where
  success : Bool
  message : String
deriving DecidableEq, Repr

/-- `verifySmsCode(phone, code)` evaluated at time `now`: missing entry
fails; an expired entry fails and is removed; a wrong code fails (entry
kept); a correct code succeeds and the entry is removed. -/
def verifySmsCode (store : CodeStore) (phone code : String) (now : Nat) :
    VerifyResult × CodeStore :=
  match csGet store phone with
  | none => (⟨false, "请先获取验证码"⟩, store)
  | some stored =>
      if stored.expireAt < now then
        (⟨false, "验证码已过期，请重新获取"⟩, csDel store phone)
      else if ¬ stored.code = code then
        (⟨false, "验证码错误"⟩, store)
      else
        (⟨true, "验证成功"⟩, csDel store phone)

/-! ## Auth middleware (middleware/auth.js) -/

/-- `String.prototype.startsWith`, via the characters. -/
def jsStartsWith (s pre : String) : Bool :=
  s.data.take pre.data.length == pre.data

/-- Token extraction: strip a `"Bearer "` marker if the header starts with
one, otherwise use the whole header value (`slice(7)` on 7 ASCII chars). -/
def extractToken (h : String) : String :=
  if jsStartsWith h "Bearer " then ⟨h.data.drop 7⟩ else h

/-- The tagged outcome of the JWT library's `verify` (the middleware branches
on the exception's name). -/
inductive TokenErr
  | expired
  | malformed
  | other (msg : String)
deriving DecidableEq, Repr

/-- The middleware's effect on the request: proceed with a resolved user id,
or reject with a response. -/
inductive AuthResult
  | proceed (userId : Nat)
  | reject (code : Nat) (message : String)
deriving DecidableEq, Repr

/-- The auth middleware.  `verify` is the JWT library's verification against
the server secret, an external collaborator passed as a function.  A missing
or empty header (both falsy) is rejected up front. -/
def authMiddleware (verify : String → Except TokenErr Nat)
    (header? : Option String) : AuthResult :=
  match header? with
  | none => .reject 401 "请先登录（未提供 token）"
  | some h =>
      if h = "" then .reject 401 "请先登录（未提供 token）"
      else
        match verify (extractToken h) with
        | .ok userId => .proceed userId
        | .error .expired => .reject 401 "登录已过期，请重新登录"
        | .error .malformed => .reject 401 "token 无效，请重新登录"
        | .error (.other msg) => .reject 500 ("认证失败: " ++ msg)

/-! ## Concrete example states (used by the example clauses and witnesses) -/

/-- Check-in history with records on 2024-01-10, 11, 12 (mixed kinds). -/
def exampleRecs : List CheckInRec :=
  [⟨1, ⟨2024, 1, 10⟩, "completed", true, [], ""⟩,
   ⟨1, ⟨2024, 1, 11⟩, "incomplete", false, [⟨"买点计划", "未执行"⟩], ""⟩,
   ⟨1, ⟨2024, 1, 12⟩, "completed", true, [], ""⟩]

/-- The same history with the 2024-01-11 record removed. -/
def exampleRecsGap : List CheckInRec :=
  [⟨1, ⟨2024, 1, 10⟩, "completed", true, [], ""⟩,
   ⟨1, ⟨2024, 1, 12⟩, "completed", true, [], ""⟩]

/-! # Supporting lemmas -/

theorem dateLe_refl (a : CalDate) : dateLe a a = true := by
  simp [dateLe]

theorem dateLe_trans {a b c : CalDate} (h₁ : dateLe a b = true)
    (h₂ : dateLe b c = true) : dateLe a c = true := by
  simp only [dateLe, decide_eq_true_eq] at *
  omega

theorem dateLe_total (a b : CalDate) :
    dateLe a b = true ∨ dateLe b a = true := by
  simp only [dateLe, decide_eq_true_eq]
  omega

theorem dateLt_prevDay {c : CalDate} (h : 1 ≤ c.y) :
    dateLt (prevDay c) c = true := by
  obtain ⟨y, m, d⟩ := c
  simp only [prevDay, dateLt, decide_eq_true_eq] at *
  split
  · simp_all; omega
  · split
    · simp_all; omega
    · simp_all; omega

theorem dateLe_of_dateLe_of_dateLt {a b c : CalDate}
    (h₁ : dateLe a b = true) (h₂ : dateLt b c = true) : dateLe a c = true := by
  simp only [dateLe, dateLt, decide_eq_true_eq] at *
  omega

theorem dateLe_eq_false_of_dateLt {a b : CalDate} (h : dateLt a b = true) :
    dateLe b a = false := by
  simp only [dateLe, dateLt, decide_eq_true_eq, decide_eq_false_iff_not] at *
  omega

/-- Strict monotonicity of `countP` under a pointwise implication that is
strict at one element of the list. -/
theorem countP_lt_countP {α : Type} (p q : α → Bool) :
    ∀ (l : List α), (∀ x ∈ l, p x = true → q x = true) →
      ∀ a ∈ l, q a = true → p a = false →
      l.countP p < l.countP q := by
  intro l
  induction l with
  | nil => intro _ a ha; cases ha
  | cons x xs ih =>
      intro hpq a ha hqa hpa
      have hmono : xs.countP p ≤ xs.countP q :=
        List.countP_mono_left (fun y hy => hpq y (List.mem_cons_of_mem _ hy))
      rcases List.mem_cons.mp ha with rfl | ha'
      · simp only [List.countP_cons, hpa, hqa]
        simp only [Bool.false_eq_true, if_false, if_true]
        omega
      · have hlt := ih (fun y hy => hpq y (List.mem_cons_of_mem _ hy)) a ha' hqa hpa
        by_cases hpx : p x = true
        · have hqx := hpq x (List.mem_cons_self x xs) hpx
          simp only [List.countP_cons, hpx, hqx, if_true]
          omega
        · simp only [List.countP_cons, hpx, Bool.false_eq_true, if_false]
          by_cases hqx : q x = true
          · simp only [hqx, if_true]; omega
          · simp only [hqx, Bool.false_eq_true, if_false]; omega

/-- The streak walk, run with enough fuel, computes exactly the reference
backward walk: every one of the first `streakWalk …` days (stepping back from
the cursor) has a record, and the next day does not. -/
theorem streakWalk_spec (dates : List CalDate)
    (hy : ∀ d ∈ dates, 1 ≤ d.y) :
    ∀ (fuel : Nat) (c : CalDate),
      (dates.filter (fun d => dateLe d c)).length ≤ fuel →
      (∀ k < streakWalk dates fuel c, prevDay^[k] c ∈ dates) ∧
        prevDay^[streakWalk dates fuel c] c ∉ dates := by
  intro fuel
  induction fuel with
  | zero =>
      intro c hfl
      have hc : c ∉ dates := by
        intro hc
        have : c ∈ dates.filter (fun d => dateLe d c) :=
          List.mem_filter.mpr ⟨hc, dateLe_refl c⟩
        have := List.length_pos_of_mem this
        omega
      constructor
      · intro k hk; simp [streakWalk] at hk
      · simpa [streakWalk] using hc
  | succ fuel ih =>
      intro c hfl
      by_cases hc : c ∈ dates
      · have hcy : 1 ≤ c.y := hy c hc
        have hdec :
            (dates.filter (fun d => dateLe d (prevDay c))).length <
              (dates.filter (fun d => dateLe d c)).length := by
          rw [← List.countP_eq_length_filter, ← List.countP_eq_length_filter]
          refine countP_lt_countP _ _ dates ?_ c hc (dateLe_refl c) ?_
          · intro x _ hx
            exact dateLe_of_dateLe_of_dateLt hx (dateLt_prevDay hcy)
          · exact dateLe_eq_false_of_dateLt (dateLt_prevDay hcy)
        have hprev := ih (prevDay c) (by omega)
        have hval : streakWalk dates (fuel + 1) c =
            streakWalk dates fuel (prevDay c) + 1 := by
          simp [streakWalk, hc]
        rw [hval]
        constructor
        · intro k hk
          match k with
          | 0 => simpa using hc
          | j + 1 =>
              rw [Function.iterate_succ_apply]
              exact hprev.1 j (by omega)
        · rw [Function.iterate_succ_apply]
          exact hprev.2
      · have hval : streakWalk dates (fuel + 1) c = 0 := by
          simp [streakWalk, hc]
        rw [hval]
        exact ⟨fun k hk => by omega, by simpa using hc⟩

theorem userDates_year {db : List CheckInRec} {u : Nat}
    (hy : ∀ r ∈ db, 1 ≤ r.date.y) : ∀ d ∈ userDates db u, 1 ≤ d.y := by
  intro d hd
  simp only [userDates, List.mem_map, List.mem_filter] at hd
  obtain ⟨r, ⟨hr, _⟩, rfl⟩ := hd
  exact hy r hr

/-- The lexicographic range [⟨y,m,1⟩, ⟨y,m,31⟩] contains exactly the dates of
that month with day between 1 and the fixed ceiling 31. -/
theorem dateLe_month_interval (year month : Nat) (d : CalDate) :
    (dateLe ⟨year, month, 1⟩ d = true ∧ dateLe d ⟨year, month, 31⟩ = true) ↔
      (d.y = year ∧ d.m = month ∧ 1 ≤ d.d ∧ d.d ≤ 31) := by
  obtain ⟨dy, dm, dd⟩ := d
  simp only [dateLe, decide_eq_true_eq]
  omega

/-- A Boolean filter and its negation partition a list's length. -/
theorem length_filter_add_length_filter_not {α : Type} (p : α → Bool)
    (l : List α) :
    (l.filter p).length + (l.filter (fun a => !p a)).length = l.length := by
  induction l with
  | nil => simp
  | cons x xs ih =>
      by_cases hx : p x = true
      · simp [List.filter_cons, hx]; omega
      · have hx' : p x = false := by simp at hx; exact hx
        simp [List.filter_cons, hx']; omega

/-! # Claim theorems -/

/-- Claim C1: the streak returned by GET /api/checkin/stats equals the
reference backward walk: it is 0 when neither today nor yesterday has a
record; otherwise, with the cursor started at today if today has a record
and at yesterday otherwise, every one of the `streak` consecutive calendar
days stepping back from the cursor (across month/year boundaries) has a
record and the next day does not — records of either kind count.  In
particular, records on 2024-01-10/11/12 with today 2024-01-12 give streak 3,
and removing the 2024-01-11 record gives streak 1. -/
theorem checkin_streak_matches_backward_walk
    (db : List CheckInRec) (u : Nat) (today : CalDate)
    (hy : ∀ r ∈ db, 1 ≤ r.date.y) :
    (today ∉ userDates db u ∧ prevDay today ∉ userDates db u →
      computeStreak db u today = 0) ∧
    ((today ∈ userDates db u ∨ prevDay today ∈ userDates db u) →
      (∀ k < computeStreak db u today,
        prevDay^[k] (if today ∈ userDates db u then today else prevDay today)
          ∈ userDates db u) ∧
      prevDay^[computeStreak db u today]
          (if today ∈ userDates db u then today else prevDay today)
          ∉ userDates db u) ∧
    computeStreak exampleRecs 1 ⟨2024, 1, 12⟩ = 3 ∧
    computeStreak exampleRecsGap 1 ⟨2024, 1, 12⟩ = 1 := by
  refine ⟨?_, ?_, by decide, by decide⟩
  · intro ⟨h1, h2⟩
    simp [computeStreak, h1, h2]
  · intro hor
    have hdy := userDates_year (u := u) hy
    have hstreak : computeStreak db u today =
        streakWalk (userDates db u) (userDates db u).length
          (if today ∈ userDates db u then today else prevDay today) := by
      simp only [computeStreak]
      rw [if_pos hor]
    rw [hstreak]
    exact streakWalk_spec (userDates db u) hdy (userDates db u).length
      (if today ∈ userDates db u then today else prevDay today)
      (List.length_filter_le _ _)

/-- Witness for C1 at a concrete history and date. -/
theorem checkin_streak_matches_backward_walk_witness :
    computeStreak exampleRecs 1 ⟨2024, 1, 12⟩ = 3 :=
  (checkin_streak_matches_backward_walk exampleRecs 1 ⟨2024, 1, 12⟩
    (by decide)).2.2.1

/-- Claim C2: GET /api/checkin?year&month returns exactly the user's records
whose date lies lexicographically in [YYYY-MM-01, YYYY-MM-31] (upper bound
fixed at 31 regardless of month length), sorted ascending by date, with
`total` the number of selected records and `completedCount`/`incompleteCount`
a partition of them; no record of an adjacent month is included (every
selected record has exactly the requested year and month). -/
theorem listMonth_selects_month_range (db : List CheckInRec)
    (u year month : Nat) :
    (listMonth db u year month).records.Perm
      (db.filter (fun r => decide (r.userId = u) &&
        dateLe ⟨year, month, 1⟩ r.date && dateLe r.date ⟨year, month, 31⟩)) ∧
    List.Pairwise (fun a b => dateLe a.date b.date = true)
      (listMonth db u year month).records ∧
    (∀ r, r ∈ (listMonth db u year month).records ↔
      (r ∈ db ∧ r.userId = u ∧ r.date.y = year ∧ r.date.m = month ∧
        1 ≤ r.date.d ∧ r.date.d ≤ 31)) ∧
    (listMonth db u year month).total =
      (listMonth db u year month).records.length ∧
    (listMonth db u year month).completedCount +
        (listMonth db u year month).incompleteCount =
      (listMonth db u year month).total := by
  have hrec : (listMonth db u year month).records =
      (db.filter (fun r => decide (r.userId = u) &&
        dateLe ⟨year, month, 1⟩ r.date &&
        dateLe r.date ⟨year, month, 31⟩)).mergeSort
        (fun a b => dateLe a.date b.date) := rfl
  have htot : (listMonth db u year month).total =
      (listMonth db u year month).records.length := rfl
  have hcc : (listMonth db u year month).completedCount =
      ((listMonth db u year month).records.filter (fun r => r.isCompleted)).length := rfl
  have hic : (listMonth db u year month).incompleteCount =
      ((listMonth db u year month).records.filter (fun r => !r.isCompleted)).length := rfl
  refine ⟨?_, ?_, ?_, htot, ?_⟩
  · rw [hrec]; exact List.mergeSort_perm _ _
  · rw [hrec]
    exact @List.sorted_mergeSort CheckInRec (fun a b => dateLe a.date b.date)
      (fun a b c hab hbc => dateLe_trans hab hbc)
      (fun a b => by
        rcases dateLe_total a.date b.date with h | h <;> simp [h]) _
  · intro r
    rw [hrec, (List.mergeSort_perm _ _).mem_iff, List.mem_filter]
    simp only [Bool.and_eq_true, decide_eq_true_eq]
    constructor
    · rintro ⟨hdb, ⟨hu, h1⟩, h2⟩
      exact ⟨hdb, hu, (dateLe_month_interval year month r.date).mp ⟨h1, h2⟩⟩
    · rintro ⟨hdb, hu, h⟩
      have h2 := (dateLe_month_interval year month r.date).mpr h
      exact ⟨hdb, ⟨hu, h2.1⟩, h2.2⟩
  · rw [hcc, hic, htot]
    exact length_filter_add_length_filter_not
      (fun r : CheckInRec => r.isCompleted) _

/-- Witness for C2 at a concrete collection. -/
theorem listMonth_selects_month_range_witness :
    (listMonth exampleRecs 1 2024 1).total = 3 ∧
    (listMonth exampleRecs 1 2024 1).completedCount +
      (listMonth exampleRecs 1 2024 1).incompleteCount = 3 := by
  have h := listMonth_selects_month_range exampleRecs 1 2024 1
  have htot : (listMonth exampleRecs 1 2024 1).total = 3 := by
    rw [h.2.2.2.1, h.1.length_eq]; decide
  exact ⟨htot, by rw [h.2.2.2.2, htot]⟩

/-- Claim C3: if a record already exists for the (user, date) pair, a second
`recordCheckIn` call for the same pair (with a valid kind) fails with the
duplicate-check-in error and creates no new record: the collection — hence
the record count and every existing record — is unchanged. -/
theorem recordCheckIn_duplicate_rejected
    (db : List CheckInRec) (u : Nat) (ty : String) (tasks : List TaskItem)
    (note : String) (date? : Option CalDate) (todayDate : CalDate)
    (hty : ty = "completed" ∨ ty = "incomplete")
    (hdup : ∃ r ∈ db, r.userId = u ∧ r.date = date?.getD todayDate) :
    (recordCheckIn db u ty tasks note date? todayDate).2 = db ∧
    (recordCheckIn db u ty tasks note date? todayDate).1 =
      ⟨400, "今天已经签到过了，不能重复签到"⟩ := by
  have hfind : (db.find? (fun r =>
      decide (r.userId = u ∧ r.date = date?.getD todayDate))).isSome := by
    rw [List.find?_isSome]
    obtain ⟨r, hr, h1, h2⟩ := hdup
    exact ⟨r, hr, by simp [h1, h2]⟩
  obtain ⟨r0, hr0⟩ := Option.isSome_iff_exists.mp hfind
  simp only [Bool.decide_and] at hr0
  rcases hty with rfl | rfl <;> simp [recordCheckIn, hr0]

/-- Witness for C3: a duplicate check-in on 2024-01-12 is rejected and the
collection is unchanged. -/
theorem recordCheckIn_duplicate_rejected_witness :
    (recordCheckIn exampleRecs 1 "completed" [] ""
        (some ⟨2024, 1, 12⟩) ⟨2024, 1, 12⟩).2 = exampleRecs ∧
    (recordCheckIn exampleRecs 1 "completed" [] ""
        (some ⟨2024, 1, 12⟩) ⟨2024, 1, 12⟩).1 =
      ⟨400, "今天已经签到过了，不能重复签到"⟩ :=
  recordCheckIn_duplicate_rejected exampleRecs 1 "completed" [] ""
    (some ⟨2024, 1, 12⟩) ⟨2024, 1, 12⟩ (Or.inl rfl) (by decide)

/-- Claim C4: every record in any reachable check-in collection satisfies
`isCompleted = (kind = completed)` — the boolean stored at creation is true
exactly when the record's kind string is "completed", and records are never
updated after creation. -/
theorem checkin_isCompleted_iff_kind
    (db : List CheckInRec) (h : CheckInReachable db) :
    ∀ r ∈ db, r.isCompleted = decide (r.type = "completed") := by
  induction h with
  | init => intro r hr; cases hr
  | step db u ty tasks note date? todayDate hdb ih =>
      intro r hr
      simp only [recordCheckIn] at hr
      split at hr
      · exact ih r hr
      · split at hr
        · exact ih r hr
        · split at hr
          · exact ih r hr
          · rcases List.mem_append.mp hr with hr' | hr'
            · exact ih r hr'
            · rw [List.mem_singleton.mp hr']

/-- Witness for C4 at a concrete reachable collection. -/
theorem checkin_isCompleted_iff_kind_witness :
    (⟨1, ⟨2024, 1, 1⟩, "completed", true, [], ""⟩ : CheckInRec).isCompleted =
      decide ((⟨1, ⟨2024, 1, 1⟩, "completed", true, [], ""⟩ : CheckInRec).type
        = "completed") :=
  checkin_isCompleted_iff_kind _
    (CheckInReachable.step [] 1 "completed" [] "" none ⟨2024, 1, 1⟩
      CheckInReachable.init)
    _ (by decide)

/-- Claim C5: a failed login looks the same whether the phone is unregistered
or the password is wrong for a registered phone — the same code 401 and the
same message are returned, so the response does not reveal which check
failed. -/
theorem login_failure_indistinguishable
    (cmp cmp' : String → String → Bool) (sign sign' : Nat → String)
    (users users' : List UserDoc) (phone pw phone' pw' : String)
    (hp : phone ≠ "") (hw : pw ≠ "") (hp' : phone' ≠ "") (hw' : pw' ≠ "")
    (hnone : users.find? (fun u => decide (u.phone = phone)) = none)
    (hwrong : ∃ u, users'.find? (fun v => decide (v.phone = phone')) = some u ∧
      cmp' pw' u.password = false) :
    login cmp sign users phone pw = login cmp' sign' users' phone' pw' ∧
    login cmp sign users phone pw = ⟨401, "手机号或密码错误", none⟩ := by
  obtain ⟨u0, hu0, hcmp⟩ := hwrong
  simp [login, hp, hw, hp', hw', hnone, hu0, hcmp]

/-- Witness for C5: unknown phone vs. wrong password give equal responses. -/
theorem login_failure_indistinguishable_witness :
    login (fun a b => a == b) (fun _ => "t") [] "13800000000" "123456" =
      login (fun a b => a == b) (fun _ => "t")
        [⟨1, "u", "13800000001", "hash"⟩] "13800000001" "wrong" :=
  (login_failure_indistinguishable (fun a b => a == b) (fun a b => a == b)
    (fun _ => "t") (fun _ => "t") [] [⟨1, "u", "13800000001", "hash"⟩]
    "13800000000" "123456" "13800000001" "wrong"
    (by decide) (by decide) (by decide) (by decide) rfl
    ⟨⟨1, "u", "13800000001", "hash"⟩, by decide, by decide⟩).1

/-- Counterexample to C6 as stated: a sub-item update invoked with an id that
is not present (99 is not in the default homework list) but a blank title
returns the validation error 400, not the NotFound error. -/
theorem subitem_notfound_counterexample :
    (putHomeworkItem (some freshSettings) 99 "" "").1.code = 400 ∧
    ¬ (putHomeworkItem (some freshSettings) 99 "" "").1.code = 404 := by
  constructor <;> decide

/-- Claim C6 (amended): every sub-item update or delete operation invoked
with an id whose parent document does not exist or whose sub-item id is not
in the parent's list returns the NotFound error (404) and leaves the stored
state completely unchanged — provided, for the update operations, the
submitted title passes validation (non-blank after trimming); a blank title
is rejected earlier with the validation error 400, also without mutating the
state. -/
theorem subitem_notfound_leaves_parent_unchanged :
    (∀ id title content, jsTrim title ≠ "" →
      putHomeworkItem none id title content = (⟨404, "设置不存在"⟩, none)) ∧
    (∀ s id title content, jsTrim title ≠ "" →
      s.tradingHomework.find? (fun it => decide (it.id = id)) = none →
      putHomeworkItem (some s) id title content = (⟨404, "功课不存在"⟩, some s)) ∧
    (∀ id title content, jsTrim title ≠ "" →
      putPlanItem none id title content = (⟨404, "设置不存在"⟩, none)) ∧
    (∀ s id title content, jsTrim title ≠ "" →
      s.tradingPlans.find? (fun it => decide (it.id = id)) = none →
      putPlanItem (some s) id title content = (⟨404, "计划不存在"⟩, some s)) ∧
    (∀ id, deleteHomeworkItem none id = (⟨404, "设置不存在"⟩, none)) ∧
    (∀ s id, s.tradingHomework.find? (fun it => decide (it.id = id)) = none →
      deleteHomeworkItem (some s) id = (⟨404, "功课不存在"⟩, some s)) ∧
    (∀ id, deletePlanItem none id = (⟨404, "设置不存在"⟩, none)) ∧
    (∀ s id, s.tradingPlans.find? (fun it => decide (it.id = id)) = none →
      deletePlanItem (some s) id = (⟨404, "计划不存在"⟩, some s)) ∧
    (∀ store date id title content, jsTrim title ≠ "" →
      dlookup store date = none →
      putDailyPlanItem store date id title content = (⟨404, "记录不存在"⟩, store)) ∧
    (∀ store date doc id title content, jsTrim title ≠ "" →
      dlookup store date = some doc →
      doc.tradingPlans.find? (fun it => decide (it.id = id)) = none →
      putDailyPlanItem store date id title content = (⟨404, "计划不存在"⟩, store)) ∧
    (∀ store date id, dlookup store date = none →
      deleteDailyPlanItem store date id = (⟨404, "记录不存在"⟩, store)) ∧
    (∀ store date doc id, dlookup store date = some doc →
      doc.tradingPlans.find? (fun it => decide (it.id = id)) = none →
      deleteDailyPlanItem store date id = (⟨404, "计划不存在"⟩, store)) := by
  refine ⟨?_, ?_, ?_, ?_, ?_, ?_, ?_, ?_, ?_, ?_, ?_, ?_⟩
  · intro id title content ht; simp [putHomeworkItem, ht]
  · intro s id title content ht hfind; simp [putHomeworkItem, ht, hfind]
  · intro id title content ht; simp [putPlanItem, ht]
  · intro s id title content ht hfind; simp [putPlanItem, ht, hfind]
  · intro id; simp [deleteHomeworkItem]
  · intro s id hfind; simp [deleteHomeworkItem, hfind]
  · intro id; simp [deletePlanItem]
  · intro s id hfind; simp [deletePlanItem, hfind]
  · intro store date id title content ht hlook
    simp [putDailyPlanItem, ht, hlook]
  · intro store date doc id title content ht hlook hfind
    simp [putDailyPlanItem, ht, hlook, hfind]
  · intro store date id hlook; simp [deleteDailyPlanItem, hlook]
  · intro store date doc id hlook hfind
    simp [deleteDailyPlanItem, hlook, hfind]

/-- Witness for C6 (amended) at concrete inputs. -/
theorem subitem_notfound_leaves_parent_unchanged_witness :
    putHomeworkItem (some freshSettings) 99 "x" "" =
      (⟨404, "功课不存在"⟩, some freshSettings) ∧
    deleteDailyPlanItem [] "2024-01-05" 3 = (⟨404, "记录不存在"⟩, []) :=
  ⟨subitem_notfound_leaves_parent_unchanged.2.1 freshSettings 99 "x" ""
      (by decide) (by decide),
   subitem_notfound_leaves_parent_unchanged.2.2.2.2.2.2.2.2.2.2.1
      [] "2024-01-05" 3 rfl⟩

theorem dropWhile_dropWhile {α : Type} (p : α → Bool) (l : List α) :
    (l.dropWhile p).dropWhile p = l.dropWhile p := by
  induction l with
  | nil => simp
  | cons x xs ih =>
      by_cases hx : p x = true
      · simp [List.dropWhile_cons, hx, ih]
      · simp [List.dropWhile_cons, hx]

theorem head_not_of_dropWhile_eq_self {α : Type} {p : α → Bool} {x : α}
    {l t : List α} (h : l.dropWhile p = l) (hx : l = x :: t) : p x = false := by
  subst hx
  by_cases hpx : p x = true
  · rw [List.dropWhile_cons, if_pos hpx] at h
    have hlen := congrArg List.length h
    have hle : (t.dropWhile p).length ≤ t.length :=
      (List.dropWhile_sublist _).length_le
    simp at hlen
    omega
  · simpa using hpx

theorem trimChars_idem (l : List Char) :
    trimChars (trimChars l) = trimChars l := by
  unfold trimChars
  have hAdw : (l.dropWhile Char.isWhitespace).dropWhile Char.isWhitespace =
      l.dropWhile Char.isWhitespace := dropWhile_dropWhile _ _
  have hBdw :
      (((l.dropWhile Char.isWhitespace).reverse.dropWhile
          Char.isWhitespace)).dropWhile Char.isWhitespace =
        (l.dropWhile Char.isWhitespace).reverse.dropWhile Char.isWhitespace :=
    dropWhile_dropWhile _ _
  have hdecomp : l.dropWhile Char.isWhitespace =
      ((l.dropWhile Char.isWhitespace).reverse.dropWhile
        Char.isWhitespace).reverse ++
      ((l.dropWhile Char.isWhitespace).reverse.takeWhile
        Char.isWhitespace).reverse := by
    have h0 :
        (l.dropWhile Char.isWhitespace).reverse.takeWhile Char.isWhitespace ++
          (l.dropWhile Char.isWhitespace).reverse.dropWhile Char.isWhitespace =
        (l.dropWhile Char.isWhitespace).reverse :=
      List.takeWhile_append_dropWhile _ _
    have h1 := congrArg List.reverse h0
    rw [List.reverse_append, List.reverse_reverse] at h1
    exact h1.symm
  have h1 : ((l.dropWhile Char.isWhitespace).reverse.dropWhile
      Char.isWhitespace).reverse.dropWhile Char.isWhitespace =
      ((l.dropWhile Char.isWhitespace).reverse.dropWhile
        Char.isWhitespace).reverse := by
    cases hBr : ((l.dropWhile Char.isWhitespace).reverse.dropWhile
        Char.isWhitespace).reverse with
    | nil => simp
    | cons x t =>
        have hhead : Char.isWhitespace x = false := by
          apply head_not_of_dropWhile_eq_self hAdw
          rw [hdecomp, hBr]
          rfl
        rw [List.dropWhile_cons, if_neg (by simp [hhead])]
  rw [h1, List.reverse_reverse, hBdw]

theorem jsTrim_idem (s : String) : jsTrim (jsTrim s) = jsTrim s :=
  congrArg String.mk (trimChars_idem s.data)

theorem mkItem_ok (id : Nat) (title content : String)
    (h : jsTrim title ≠ "") : itemOk (mkItem id title content) := by
  refine ⟨?_, jsTrim_idem title, jsTrim_idem content⟩
  show jsTrim (jsTrim title) ≠ ""
  rw [jsTrim_idem]
  exact h

theorem itemsOk_nil : itemsOk [] := fun x hx => absurd hx (List.not_mem_nil x)

theorem itemsOk_append {l : List SettingsItem} {it : SettingsItem}
    (hl : itemsOk l) (hit : itemOk it) : itemsOk (l ++ [it]) := by
  intro x hx
  rcases List.mem_append.mp hx with h | h
  · exact hl x h
  · rw [List.mem_singleton.mp h]; exact hit

theorem itemsOk_filter {l : List SettingsItem} (p : SettingsItem → Bool)
    (hl : itemsOk l) : itemsOk (l.filter p) :=
  fun x hx => hl x (List.mem_filter.mp hx).1

theorem itemsOk_updateItemList {l : List SettingsItem} (id : Nat)
    {title : String} (content : String) (ht : ¬ jsTrim title = "")
    (hl : itemsOk l) : itemsOk (updateItemList l id title content) := by
  intro x hx
  simp only [updateItemList, List.mem_map] at hx
  obtain ⟨it, hit, rfl⟩ := hx
  split
  · exact mkItem_ok _ _ _ (by rw [jsTrim_idem]; exact ht)
  · exact hl it hit

theorem itemsOk_assignIds :
    ∀ (l : List RawItem) (seed : Nat), (∀ i ∈ l, ¬ jsTrim i.title = "") →
      itemsOk (assignIds seed l) := by
  intro l
  induction l with
  | nil => intro seed h; exact itemsOk_nil
  | cons i rest ih =>
      intro seed h x hx
      rcases List.mem_cons.mp hx with rfl | hx'
      · exact mkItem_ok _ _ _ (h i (List.mem_cons_self i rest))
      · exact ih (seed + 1) (fun j hj => h j (List.mem_cons_of_mem _ hj)) x hx'

theorem itemsOk_assignIds_filter (seed : Nat) (l : List RawItem) :
    itemsOk (assignIds seed (l.filter (fun i => ¬ jsTrim i.title = ""))) :=
  itemsOk_assignIds _ seed (fun i hi => by
    simpa using (List.mem_filter.mp hi).2)

theorem freshSettings_ok :
    itemsOk freshSettings.tradingHomework ∧
      itemsOk freshSettings.tradingPlans := by
  constructor <;> (unfold itemsOk itemOk; decide)

theorem settingsOk_getD {s? : Option UserSettingsDoc} (h : SettingsOk s?) :
    itemsOk (s?.getD freshSettings).tradingHomework ∧
      itemsOk (s?.getD freshSettings).tradingPlans := by
  cases s? with
  | none => exact freshSettings_ok
  | some s => exact h s rfl

theorem itemsOk_DEFAULT_HOMEWORK : itemsOk DEFAULT_HOMEWORK :=
  freshSettings_ok.1

theorem itemsOk_DEFAULT_PLANS : itemsOk DEFAULT_PLANS :=
  freshSettings_ok.2

theorem settingsOk_get {s? : Option UserSettingsDoc} (h : SettingsOk s?) :
    SettingsOk (some (getSettings s?)) := by
  intro s' hs'
  cases hs'
  cases s? with
  | none => exact freshSettings_ok
  | some s =>
      constructor
      · show itemsOk (if s.tradingHomework = [] then DEFAULT_HOMEWORK
          else s.tradingHomework)
        split
        · exact itemsOk_DEFAULT_HOMEWORK
        · exact (h s rfl).1
      · show itemsOk (if s.tradingPlans = [] then DEFAULT_PLANS
          else s.tradingPlans)
        split
        · exact itemsOk_DEFAULT_PLANS
        · exact (h s rfl).2

theorem settingsOk_principles {s? : Option UserSettingsDoc}
    (preset? : Option (List (Nat × Bool))) (custom? : Option (List String))
    (h : SettingsOk s?) : SettingsOk (putPrinciples s? preset? custom?).2 := by
  intro s' hs'
  cases preset? <;> cases custom? <;>
    (simp only [putPrinciples] at hs'
     injection hs' with hs'
     subst hs'
     exact ⟨(settingsOk_getD h).1, (settingsOk_getD h).2⟩)

theorem settingsOk_hwList {s? : Option UserSettingsDoc} (l : List RawItem)
    (seed : Nat) (h : SettingsOk s?) :
    SettingsOk (putHomeworkList s? l seed).2 := by
  intro s' hs'
  simp only [putHomeworkList] at hs'
  injection hs' with hs'
  subst hs'
  exact ⟨itemsOk_assignIds_filter seed l, (settingsOk_getD h).2⟩

theorem settingsOk_planList {s? : Option UserSettingsDoc} (l : List RawItem)
    (seed : Nat) (h : SettingsOk s?) :
    SettingsOk (putPlansList s? l seed).2 := by
  intro s' hs'
  simp only [putPlansList] at hs'
  injection hs' with hs'
  subst hs'
  exact ⟨(settingsOk_getD h).1, itemsOk_assignIds_filter seed l⟩

theorem settingsOk_hwPost {s? : Option UserSettingsDoc}
    (title content : String) (seed : Nat) (h : SettingsOk s?) :
    SettingsOk (postHomework s? title content seed).2 := by
  intro s' hs'
  by_cases hblank : jsTrim title = ""
  · simp [postHomework, hblank] at hs'
    exact h s' hs'
  · simp only [postHomework, if_neg hblank] at hs'
    injection hs' with hs'
    subst hs'
    refine ⟨itemsOk_append (settingsOk_getD h).1 ?_, (settingsOk_getD h).2⟩
    exact mkItem_ok _ _ _ (by rw [jsTrim_idem]; exact hblank)

theorem settingsOk_planPost {s? : Option UserSettingsDoc}
    (title content : String) (seed : Nat) (h : SettingsOk s?) :
    SettingsOk (postPlan s? title content seed).2 := by
  intro s' hs'
  by_cases hblank : jsTrim title = ""
  · simp [postPlan, hblank] at hs'
    exact h s' hs'
  · simp only [postPlan, if_neg hblank] at hs'
    injection hs' with hs'
    subst hs'
    refine ⟨(settingsOk_getD h).1, itemsOk_append (settingsOk_getD h).2 ?_⟩
    exact mkItem_ok _ _ _ (by rw [jsTrim_idem]; exact hblank)

theorem settingsOk_hwPut {s? : Option UserSettingsDoc} (id : Nat)
    (title content : String) (h : SettingsOk s?) :
    SettingsOk (putHomeworkItem s? id title content).2 := by
  intro s' hs'
  by_cases hblank : jsTrim title = ""
  · simp [putHomeworkItem, hblank] at hs'
    exact h s' hs'
  · cases s? with
    | none => simp [putHomeworkItem, hblank] at hs'
    | some s =>
        rcases hfind : s.tradingHomework.find? (fun it => decide (it.id = id))
          with _ | it0
        · simp [putHomeworkItem, hblank, hfind] at hs'
          subst hs'
          exact h s rfl
        · simp [putHomeworkItem, hblank, hfind] at hs'
          subst hs'
          exact ⟨itemsOk_updateItemList id content hblank (h s rfl).1,
            (h s rfl).2⟩

theorem settingsOk_planPut {s? : Option UserSettingsDoc} (id : Nat)
    (title content : String) (h : SettingsOk s?) :
    SettingsOk (putPlanItem s? id title content).2 := by
  intro s' hs'
  by_cases hblank : jsTrim title = ""
  · simp [putPlanItem, hblank] at hs'
    exact h s' hs'
  · cases s? with
    | none => simp [putPlanItem, hblank] at hs'
    | some s =>
        rcases hfind : s.tradingPlans.find? (fun it => decide (it.id = id))
          with _ | it0
        · simp [putPlanItem, hblank, hfind] at hs'
          subst hs'
          exact h s rfl
        · simp [putPlanItem, hblank, hfind] at hs'
          subst hs'
          exact ⟨(h s rfl).1,
            itemsOk_updateItemList id content hblank (h s rfl).2⟩

theorem settingsOk_hwDel {s? : Option UserSettingsDoc} (id : Nat)
    (h : SettingsOk s?) : SettingsOk (deleteHomeworkItem s? id).2 := by
  intro s' hs'
  cases s? with
  | none => simp [deleteHomeworkItem] at hs'
  | some s =>
      rcases hfind : s.tradingHomework.find? (fun it => decide (it.id = id))
        with _ | it0
      · simp [deleteHomeworkItem, hfind] at hs'
        subst hs'
        exact h s rfl
      · simp [deleteHomeworkItem, hfind] at hs'
        subst hs'
        exact ⟨itemsOk_filter _ (h s rfl).1, (h s rfl).2⟩

theorem settingsOk_planDel {s? : Option UserSettingsDoc} (id : Nat)
    (h : SettingsOk s?) : SettingsOk (deletePlanItem s? id).2 := by
  intro s' hs'
  cases s? with
  | none => simp [deletePlanItem] at hs'
  | some s =>
      rcases hfind : s.tradingPlans.find? (fun it => decide (it.id = id))
        with _ | it0
      · simp [deletePlanItem, hfind] at hs'
        subst hs'
        exact h s rfl
      · simp [deletePlanItem, hfind] at hs'
        subst hs'
        exact ⟨(h s rfl).1, itemsOk_filter _ (h s rfl).2⟩

theorem dailyOk_dset {store : DailyStore} {date : String} {doc : DailyDoc}
    (h : DailyOk store) (hdoc : itemsOk doc.tradingPlans) :
    DailyOk (dset store date doc) := by
  intro e he
  rcases List.mem_cons.mp he with rfl | he'
  · exact hdoc
  · exact h e (List.mem_filter.mp he').1

theorem dailyOk_lookup {store : DailyStore} {date : String} {doc : DailyDoc}
    (h : DailyOk store) (hl : dlookup store date = some doc) :
    itemsOk doc.tradingPlans := by
  simp only [dlookup, Option.map_eq_some'] at hl
  obtain ⟨p, hp, hpd⟩ := hl
  rw [← hpd]
  exact h p (List.mem_of_find?_eq_some hp)

theorem dailyOk_base {store : DailyStore} (date : String) (h : DailyOk store) :
    itemsOk ((dlookup store date).getD ⟨[], ""⟩).tradingPlans := by
  rcases hl : dlookup store date with _ | doc
  · exact itemsOk_nil
  · exact dailyOk_lookup h hl

theorem dailyOk_put {store : DailyStore} (date : String)
    (plans? : Option (List RawItem)) (reflection? : Option String)
    (seed : Nat) (h : DailyOk store) :
    DailyOk (putDaily store date plans? reflection? seed).2 := by
  unfold putDaily
  by_cases hv : validDateStr date = true
  · rw [if_neg (by simp [hv])]
    cases plans? with
    | none =>
        cases reflection? with
        | none => exact dailyOk_dset h (dailyOk_base date h)
        | some r => exact dailyOk_dset h (dailyOk_base date h)
    | some l =>
        cases reflection? with
        | none => exact dailyOk_dset h (itemsOk_assignIds_filter seed l)
        | some r => exact dailyOk_dset h (itemsOk_assignIds_filter seed l)
  · rw [if_pos hv]
    exact h

theorem dailyOk_post {store : DailyStore} (date title content : String)
    (seed : Nat) (h : DailyOk store) :
    DailyOk (postDailyPlan store date title content seed).2 := by
  unfold postDailyPlan
  by_cases hv : validDateStr date = true
  · rw [if_neg (by simp [hv])]
    by_cases hblank : jsTrim title = ""
    · rw [if_pos hblank]
      exact h
    · rw [if_neg hblank]
      exact dailyOk_dset h
        (itemsOk_append (dailyOk_base date h)
          (mkItem_ok _ _ _ (by rw [jsTrim_idem]; exact hblank)))
  · rw [if_pos hv]
    exact h

theorem dailyOk_putItem {store : DailyStore} (date : String) (id : Nat)
    (title content : String) (h : DailyOk store) :
    DailyOk (putDailyPlanItem store date id title content).2 := by
  by_cases hblank : jsTrim title = ""
  · simp [putDailyPlanItem, hblank]
    exact h
  · rcases hl : dlookup store date with _ | doc
    · simp [putDailyPlanItem, hblank, hl]
      exact h
    · rcases hfind : doc.tradingPlans.find? (fun it => decide (it.id = id))
        with _ | it0
      · simp [putDailyPlanItem, hblank, hl, hfind]
        exact h
      · simp [putDailyPlanItem, hblank, hl, hfind]
        exact dailyOk_dset h
          (itemsOk_updateItemList id content hblank (dailyOk_lookup h hl))

theorem dailyOk_delItem {store : DailyStore} (date : String) (id : Nat)
    (h : DailyOk store) :
    DailyOk (deleteDailyPlanItem store date id).2 := by
  rcases hl : dlookup store date with _ | doc
  · simp [deleteDailyPlanItem, hl]
    exact h
  · rcases hfind : doc.tradingPlans.find? (fun it => decide (it.id = id))
      with _ | it0
    · simp [deleteDailyPlanItem, hl, hfind]
      exact h
    · simp [deleteDailyPlanItem, hl, hfind]
      exact dailyOk_dset h (itemsOk_filter _ (dailyOk_lookup h hl))

theorem dailyOk_reflect {store : DailyStore} (date reflection : String)
    (h : DailyOk store) :
    DailyOk (putReflection store date reflection).2 := by
  unfold putReflection
  by_cases hv : validDateStr date = true
  · rw [if_neg (by simp [hv])]
    exact dailyOk_dset h (dailyOk_base date h)
  · rw [if_pos hv]
    exact h

/-- Claim C7: in every reachable settings document and daily collection,
every stored homework/plan item has a title that is non-empty after
trimming, and titles and contents are stored trimmed — list writes filter
out blank-titled items and the schema stores the rest trimmed. -/
theorem stored_titles_nonblank_and_trimmed :
    (∀ s?, SettingsReachable s? → SettingsOk s?) ∧
    (∀ store, DailyReachable store → DailyOk store) := by
  constructor
  · intro s? h
    induction h with
    | init => intro s hs; cases hs
    | get s? h ih => exact settingsOk_get ih
    | principles s? preset? custom? h ih =>
        exact settingsOk_principles preset? custom? ih
    | hwList s? l seed h ih => exact settingsOk_hwList l seed ih
    | planList s? l seed h ih => exact settingsOk_planList l seed ih
    | hwPost s? title content seed h ih =>
        exact settingsOk_hwPost title content seed ih
    | planPost s? title content seed h ih =>
        exact settingsOk_planPost title content seed ih
    | hwPut s? id title content h ih =>
        exact settingsOk_hwPut id title content ih
    | planPut s? id title content h ih =>
        exact settingsOk_planPut id title content ih
    | hwDel s? id h ih => exact settingsOk_hwDel id ih
    | planDel s? id h ih => exact settingsOk_planDel id ih
  · intro store h
    induction h with
    | init => intro e he; cases he
    | put store date plans? reflection? seed h ih =>
        exact dailyOk_put date plans? reflection? seed ih
    | post store date title content seed h ih =>
        exact dailyOk_post date title content seed ih
    | putItem store date id title content h ih =>
        exact dailyOk_putItem date id title content ih
    | delItem store date id h ih => exact dailyOk_delItem date id ih
    | reflect store date reflection h ih => exact dailyOk_reflect date reflection ih

/-- Witness for C7 at a concrete reachable settings state: a list write with
one padded title and one blank title stores a single trimmed item. -/
theorem stored_titles_nonblank_and_trimmed_witness :
    itemOk ⟨7, "a", "b"⟩ :=
  (stored_titles_nonblank_and_trimmed.1 _
    (SettingsReachable.hwList none [⟨" a ", " b "⟩, ⟨"  ", "c"⟩] 7
      SettingsReachable.init)
    { freshSettings with tradingHomework := [⟨7, "a", "b"⟩] }
    (by decide)).1 ⟨7, "a", "b"⟩ (by decide)

/-- Claim C8: the first GET /api/settings for a user with no settings
document creates and returns exactly the three fixed default homework items
and the three fixed default plan items; for an existing document whose
homework or plans list is empty, the same three defaults are backfilled into
the empty list (and a non-empty list is left alone). -/
theorem settings_defaults_created_and_backfilled (s : UserSettingsDoc) :
    getSettings none = freshSettings ∧
    freshSettings.tradingHomework = DEFAULT_HOMEWORK ∧
    freshSettings.tradingPlans = DEFAULT_PLANS ∧
    DEFAULT_HOMEWORK.length = 3 ∧
    DEFAULT_PLANS.length = 3 ∧
    (s.tradingHomework = [] →
      (getSettings (some s)).tradingHomework = DEFAULT_HOMEWORK) ∧
    (s.tradingPlans = [] →
      (getSettings (some s)).tradingPlans = DEFAULT_PLANS) ∧
    (s.tradingHomework ≠ [] →
      (getSettings (some s)).tradingHomework = s.tradingHomework) ∧
    (s.tradingPlans ≠ [] →
      (getSettings (some s)).tradingPlans = s.tradingPlans) := by
  refine ⟨rfl, rfl, rfl, rfl, rfl, ?_, ?_, ?_, ?_⟩ <;>
    intro h <;> simp [getSettings, h]

/-- Witness for C8: backfill of an empty homework list. -/
theorem settings_defaults_created_and_backfilled_witness :
    (getSettings (some ⟨[(0, true)], [], [], DEFAULT_PLANS⟩)).tradingHomework
      = DEFAULT_HOMEWORK :=
  (settings_defaults_created_and_backfilled
    ⟨[(0, true)], [], [], DEFAULT_PLANS⟩).2.2.2.2.2.1 rfl

theorem csGet_set (store : CodeStore) (phone : String) (e : CodeEntry) :
    csGet (csSet store phone e) phone = some e := by
  simp [csGet, csSet, List.find?]

theorem csGet_del (store : CodeStore) (phone : String) :
    csGet (csDel store phone) phone = none := by
  induction store with
  | nil => rfl
  | cons p rest ih =>
      by_cases hp : p.1 = phone
      · have hstep : csDel (p :: rest) phone = csDel rest phone := by
          simp [csDel, List.filter_cons, hp]
        rw [hstep]
        exact ih
      · rw [show csDel (p :: rest) phone = p :: csDel rest phone from by
            simp [csDel, List.filter_cons, hp]]
        have hpred : (fun q : String × CodeEntry => decide (q.1 = phone)) p
            = false := by simp [hp]
        simp only [csGet, List.find?_cons, hpred]
        exact ih

theorem verifySmsCode_success_state {store : CodeStore} {phone code : String}
    {now : Nat}
    (h : (verifySmsCode store phone code now).1.success = true) :
    (verifySmsCode store phone code now).2 = csDel store phone := by
  rcases hget : csGet store phone with _ | e
  · simp [verifySmsCode, hget] at h
  · by_cases hexp : e.expireAt < now
    · simp [verifySmsCode, hget, hexp] at h
    · by_cases hcode : e.code = code
      · simp [verifySmsCode, hget, hexp, hcode]
      · simp [verifySmsCode, hget, hexp, hcode] at h

/-- Claim C9: verification codes are single-use and time-limited: a
successful `verifySmsCode` removes the stored entry, so an immediately
repeated call with the same phone and code fails; and a `verifySmsCode` more
than 5 minutes after the code was stored fails with the expiry message and
removes the entry. -/
theorem sms_codes_single_use_and_time_limited :
    (∀ store phone code now now',
      (verifySmsCode store phone code now).1.success = true →
      (verifySmsCode (verifySmsCode store phone code now).2 phone code
        now').1.success = false) ∧
    (∀ store phone codeSent code t now, t + 5 * 60 * 1000 < now →
      (verifySmsCode (storeCode store phone codeSent t) phone code now).1 =
        ⟨false, "验证码已过期，请重新获取"⟩ ∧
      csGet (verifySmsCode (storeCode store phone codeSent t) phone code
        now).2 phone = none) := by
  constructor
  · intro store phone code now now' h
    rw [verifySmsCode_success_state h]
    simp [verifySmsCode, csGet_del]
  · intro store phone codeSent code t now hexp
    have hget : csGet (storeCode store phone codeSent t) phone =
        some ⟨codeSent, t + 5 * 60 * 1000⟩ := csGet_set _ _ _
    constructor
    · simp [verifySmsCode, hget, hexp]
    · simp only [verifySmsCode, hget]
      rw [if_pos (by simpa using hexp)]
      exact csGet_del _ _

/-- Witness for C9: a code stored at t = 0 fails with the expiry message at
t = 300001 ms (just over five minutes later). -/
theorem sms_codes_single_use_and_time_limited_witness :
    (verifySmsCode (storeCode [] "13812345678" "123456" 0)
      "13812345678" "123456" 300001).1 =
      ⟨false, "验证码已过期，请重新获取"⟩ :=
  (sms_codes_single_use_and_time_limited.2 [] "13812345678" "123456"
    "123456" 0 300001 (by decide)).1

/-- Claim C10: an Authorization header that does not start with "Bearer " is
used whole as the token, so a valid token sent without the marker is
accepted and resolves to the same user as the same token sent with the
marker. -/
theorem auth_accepts_unmarked_token (verify : String → Except TokenErr Nat)
    (h : String) (hne : h ≠ "") (hnb : jsStartsWith h "Bearer " = false) :
    authMiddleware verify (some h) =
      authMiddleware verify (some ("Bearer " ++ h)) ∧
    (∀ uid, verify h = Except.ok uid →
      authMiddleware verify (some h) = AuthResult.proceed uid) := by
  have hx : extractToken h = h := by
    unfold extractToken
    rw [if_neg (by simp [hnb])]
  have hpre : jsStartsWith ("Bearer " ++ h) "Bearer " = true := by
    unfold jsStartsWith
    rw [String.data_append]
    rw [List.take_left]
    simp
  have hby : extractToken ("Bearer " ++ h) = h := by
    unfold extractToken
    rw [if_pos (by rw [hpre])]
    show (⟨("Bearer " ++ h).data.drop 7⟩ : String) = h
    rw [String.data_append]
    have h7 : ("Bearer ".data).length = 7 := rfl
    rw [← h7, List.drop_left]
  have hne2 : ("Bearer " ++ h) ≠ "" := by
    intro hc
    have hdata := congrArg String.data hc
    rw [String.data_append] at hdata
    simp at hdata
  constructor
  · simp [authMiddleware, hne, hne2, hx, hby]
  · intro uid huid
    simp [authMiddleware, hne, hx, huid]

/-- Witness for C10: a concrete valid token without the marker resolves to
its user. -/
theorem auth_accepts_unmarked_token_witness :
    authMiddleware (fun t => if t = "abc123" then Except.ok 7
      else Except.error TokenErr.malformed) (some "abc123") =
      AuthResult.proceed 7 :=
  (auth_accepts_unmarked_token
    (fun t => if t = "abc123" then Except.ok 7
      else Except.error TokenErr.malformed)
    "abc123" (by decide) (by decide)).2 7 (by rfl)

end TradingMind
